import Mathlib

/- Verification of the video acquisition and cache coordinator of the
ivLyrics-helper daemon, shallowly embedded from the Rust source under
src-tauri/src (video_server.rs, ytdlp.rs, lyrics_server.rs, config.rs).
The filesystem, the child extractor process and the regex engine are
external to the program; they appear as oracle fields of environment
records, while all control flow and string handling is translated from
the source. -/

/-- Download status taxonomy from ytdlp.rs, enum DownloadStatus. -/
inductive DownloadStatus
  | checking
  | downloading
  | processing
  | completed
  | error
  | alreadyExists
deriving DecidableEq, Repr

/-- Progress event record from ytdlp.rs, struct DownloadProgress. The
percent field is a rational standing for the f32 value carried by the
source record. -/
structure DownloadProgress where
  video_id : String
  status : DownloadStatus
  percent : Option Rat
  speed : Option String
  eta : Option String
  message : Option String
deriving DecidableEq, Repr

/-- A status is terminal when it is completed, error or already-exists:
exactly the statuses that create_progress_stream in video_server.rs maps
to an SSE frame of event type complete. -/
def DownloadStatus.isTerminal : DownloadStatus → Bool
  | .completed => true
  | .error => true
  | .alreadyExists => true
  | _ => false

/-- Code points with the Unicode property White_Space, the set recognised
by the Rust char::is_whitespace and hence by str::trim as used in
handle_video_request and handle_video_status. -/
def rustWhitespaceCodes : List Nat :=
  [0x9, 0xA, 0xB, 0xC, 0xD, 0x20, 0x85, 0xA0, 0x1680,
   0x2000, 0x2001, 0x2002, 0x2003, 0x2004, 0x2005, 0x2006, 0x2007,
   0x2008, 0x2009, 0x200A, 0x2028, 0x2029, 0x202F, 0x205F, 0x3000]

/-- Rust char::is_whitespace. -/
def rustIsWhitespace (c : Char) : Bool :=
  rustWhitespaceCodes.contains c.toNat

/-- Rust char::is_ascii_whitespace; only used to state the ASCII-trim
reading of claim C10 for comparison against the source behaviour. -/
def asciiIsWhitespace (c : Char) : Bool :=
  [0x9, 0xA, 0xC, 0xD, 0x20].contains c.toNat

/-- Remove leading and trailing characters satisfying ws. -/
def trimCharList (ws : Char → Bool) (l : List Char) : List Char :=
  ((l.dropWhile ws).reverse.dropWhile ws).reverse

/-- Rust str::trim, applied by both video handlers to the raw id query
parameter. -/
def rustTrim (s : String) : String :=
  ⟨trimCharList rustIsWhitespace s.data⟩

/-- Trimming restricted to ASCII whitespace. Modelled from the words of
claim C10 only, for comparison with rustTrim; the source trims the full
Unicode set. -/
def asciiTrim (s : String) : String :=
  ⟨trimCharList asciiIsWhitespace s.data⟩

/-- Rust str::starts_with for plain string patterns. -/
def strStartsWith (s pat : String) : Bool :=
  List.isPrefixOf pat.data s.data

/-- pat occurs as a contiguous run inside l. -/
def charsContain (pat : List Char) : List Char → Bool
  | [] => pat.isEmpty
  | c :: rest => List.isPrefixOf pat (c :: rest) || charsContain pat rest

/-- Rust str::contains for plain string patterns. -/
def strContainsSub (s pat : String) : Bool :=
  charsContain pat.data s.data

/-- The cache directory is modelled as the list of file names it holds.
video_path in ytdlp.rs joins the directory with the name id ++ ".webm";
video_exists checks existence of exactly that path. -/
def video_exists (files : List String) (video_id : String) : Bool :=
  files.contains (video_id ++ ".webm")

/-- The directory scan run by try_download_video after a successful child
exit: the first entry whose file name starts with the video id. -/
def find_video_file (files : List String) (video_id : String) : Option String :=
  files.find? (fun f => strStartsWith f video_id)

/-- JSON body of the video routes, struct VideoResponse in
video_server.rs. -/
structure VideoResponse where
  success : Bool
  video_id : String
  url : Option String
  message : Option String
deriving DecidableEq, Repr

/-- Outcome of handle_video_request: a 400 JSON response, a 200 JSON
response, or an SSE stream subscribed through start_or_subscribe for the
given (trimmed) id. -/
inductive RequestResponse
  | badRequest (body : VideoResponse)
  | okJson (body : VideoResponse)
  | sse (subscribed_id : String)
deriving DecidableEq, Repr

/-- Last slash-separated component of a file path, modelling
PathBuf::file_name applied to videos_dir joined with the default file
name. -/
def lastComponent (s : String) : String :=
  ⟨s.data.foldl (fun acc c => if c = '/' then [] else acc ++ [c]) []⟩

/-- Fixed public URL scheme of the static file route. -/
def fileUrl (name : String) : String :=
  "http://localhost:15123/video/files/" ++ name

/-- GET /video/request (handle_video_request in video_server.rs), as a
function of the cache file list and the raw id query parameter. An sse
result stands for the subscription obtained from start_or_subscribe with
the trimmed id; no acquisition is started on the other results. -/
def handle_video_request (files : List String) (raw_id : String) : RequestResponse :=
  let vid := rustTrim raw_id
  if vid = "" ∨ 20 < vid.utf8ByteSize then
    .badRequest ⟨false, vid, none, some "Invalid video ID"⟩
  else if video_exists files vid then
    .okJson ⟨true, vid, some (fileUrl (lastComponent (vid ++ ".webm"))),
      some "Video already available"⟩
  else
    .sse vid

/-- GET /video/status (handle_video_status in video_server.rs): the HTTP
status code together with the JSON body. The source returns a bare
axum Json responder, hence code 200 on every path. -/
def handle_video_status (files : List String) (raw_id : String) : Nat × VideoResponse :=
  let vid := rustTrim raw_id
  (200,
    if video_exists files vid then
      ⟨true, vid, some (fileUrl (lastComponent (vid ++ ".webm"))), some "Video available"⟩
    else
      ⟨false, vid, none, some "Video not downloaded"⟩)

/-- The request handler as read by claim C10, with trimming restricted to
ASCII whitespace. Modelled from the claim words only, to be compared with
handle_video_request. -/
def handle_video_request_ascii_spec (files : List String) (raw_id : String) : RequestResponse :=
  let vid := asciiTrim raw_id
  if vid = "" ∨ 20 < vid.utf8ByteSize then
    .badRequest ⟨false, vid, none, some "Invalid video ID"⟩
  else if video_exists files vid then
    .okJson ⟨true, vid, some (fileUrl (lastComponent (vid ++ ".webm"))),
      some "Video already available"⟩
  else
    .sse vid

/- Single-flight coordinator, video_server.rs DownloadCoordinator. The
method start_or_subscribe consists of two separate critical sections on
the in_progress mutex: the lookup (line 203) and, after the first guard
is dropped, the channel creation plus insert plus task spawn (lines
208-218). Each critical section is one atomic step of the model. -/

/-- Phase of one pending start_or_subscribe call: before the first
critical section; after a lookup miss with the first guard released; or
finished, holding a receiver of broadcast channel chan. -/
inductive CallPhase
  | start
  | checkedMiss
  | done (chan : Nat)
deriving DecidableEq, Repr

/-- Coordinator state: the in_progress registry as an association list
from id to broadcast channel token, a fresh-channel counter, the download
tasks spawned so far (id and channel they publish to), and the per-call
phases (id requested, phase). -/
structure CoordState where
  registry : List (String × Nat)
  nextChan : Nat
  spawned : List (String × Nat)
  calls : List (String × CallPhase)
deriving DecidableEq, Repr

/-- HashMap::get on the registry. -/
def regLookup (reg : List (String × Nat)) (id : String) : Option Nat :=
  (reg.find? (fun p => p.1 == id)).map (fun p => p.2)

/-- HashMap::insert on the registry: replaces an existing binding. -/
def regInsert (reg : List (String × Nat)) (id : String) (c : Nat) : List (String × Nat) :=
  match reg with
  | [] => [(id, c)]
  | (k, v) :: t => if k == id then (id, c) :: t else (k, v) :: regInsert t id c

/-- Execute the next atomic critical section of call i. In phase start it
runs the locked lookup: a hit finishes the call with a subscription to
the found channel, a miss only records the miss. In phase checkedMiss it
runs the second locked section: create a fresh broadcast channel, insert
it (replacing any entry another call inserted meanwhile), spawn the
download task, and finish with a receiver of the fresh channel. -/
def sfStep (s : CoordState) (i : Nat) : CoordState :=
  match s.calls[i]? with
  | none => s
  | some (id, phase) =>
    match phase with
    | .start =>
      match regLookup s.registry id with
      | some c => { s with calls := s.calls.set i (id, .done c) }
      | none => { s with calls := s.calls.set i (id, .checkedMiss) }
    | .checkedMiss =>
      { s with
        registry := regInsert s.registry id s.nextChan
        nextChan := s.nextChan + 1
        spawned := s.spawned ++ [(id, s.nextChan)]
        calls := s.calls.set i (id, .done s.nextChan) }
    | .done _ => s

/-- Run a schedule of critical sections. -/
def sfRun (s : CoordState) (sched : List Nat) : CoordState :=
  sched.foldl sfStep s

/-- Two concurrent /video/request calls for the same id on a cache miss,
neither yet finished. -/
def sfInit : CoordState :=
  ⟨[], 0, [], [("abc", .start), ("abc", .start)]⟩

/- Lyrics relay, lyrics_server.rs. -/

/-- Lyric line record, struct LyricLine. -/
structure LyricLine where
  start_time : Int
  end_time : Option Int
  text : String
  pron_text : Option String
  trans_text : Option String
deriving DecidableEq, Repr

/-- Track metadata, struct TrackInfo. -/
structure TrackInfo where
  title : String
  artist : String
  album : String
  album_art : Option String
  duration : Nat
deriving DecidableEq, Repr

/-- Full lyrics payload, struct LyricsData. -/
structure LyricsData where
  track : TrackInfo
  lyrics : List LyricLine
  is_synced : Bool
deriving DecidableEq, Repr

/-- Playback progress payload, struct ProgressData; position is the u64
field position. -/
structure ProgressData where
  position : Nat
  is_playing : Bool
deriving DecidableEq, Repr

/-- The cast progress_data.position as i64 performed by handle_get_now. -/
def u64AsI64 (n : Nat) : Int :=
  if n % 2 ^ 64 < 2 ^ 63 then ((n % 2 ^ 64 : Nat) : Int)
  else ((n % 2 ^ 64 : Nat) : Int) - 2 ^ 64

/-- end_time.unwrap_or(start_time). -/
def lineEnd (l : LyricLine) : Int :=
  l.end_time.getD l.start_time

/-- Loop body of handle_get_now: cur is the current_lyric accumulator. -/
def getNowLoop (pos : Int) : List LyricLine → Option LyricLine → Option LyricLine
  | [], cur => cur
  | l :: rest, cur =>
    if l.start_time ≤ pos ∧ pos ≤ lineEnd l then some l
    else if pos < l.start_time then cur
    else getNowLoop pos rest (some l)

/-- GET /lyrics/getnow (handle_get_now in lyrics_server.rs) as a function
of the two cells. -/
def handle_get_now (lyrics : Option LyricsData) (progress : Option ProgressData) :
    Option LyricLine :=
  match lyrics with
  | none => none
  | some ld =>
    match progress with
    | none => none
    | some pd => getNowLoop (u64AsI64 pd.position) ld.lyrics none

/-- A line lies strictly before the position: it has started and its
interval ended strictly earlier. -/
def strictlyBefore (pos : Int) (l : LyricLine) : Bool :=
  decide (l.start_time ≤ pos) && decide (lineEnd l < pos)

/-- The most recent line strictly before the position among the lines
scanned so far, in given order. -/
def mostRecentBefore (pos : Int) (scanned : List LyricLine) : Option LyricLine :=
  (scanned.filter (strictlyBefore pos)).getLast?

/-- Claim C8 word for word: iterate lines in given order; return the
first line whose interval contains the position; on meeting a line whose
start exceeds the position first, return the most recent line strictly
before the position; at the end of the list likewise. The first argument
accumulates the scanned prefix. -/
def getNowSpecAux (pos : Int) (scanned : List LyricLine) :
    List LyricLine → Option LyricLine
  | [] => mostRecentBefore pos scanned
  | l :: rest =>
    if l.start_time ≤ pos ∧ pos ≤ lineEnd l then some l
    else if pos < l.start_time then mostRecentBefore pos scanned
    else getNowSpecAux pos (scanned ++ [l]) rest

/-- The current-line query as described by claim C8. -/
def getNowSpec (lyrics : Option LyricsData) (progress : Option ProgressData) :
    Option LyricLine :=
  match lyrics with
  | none => none
  | some ld =>
    match progress with
    | none => none
    | some pd => getNowSpecAux (u64AsI64 pd.position) [] ld.lyrics

/- Cache pruning, ytdlp.rs prune_cache_if_needed and max_cache_bytes. -/

/-- One regular file of the cache directory as collected by the pruning
pass: path, modification time, byte size. -/
structure CacheFile where
  path : String
  mtime : Nat
  size : Nat
deriving DecidableEq, Repr

/-- Largest u64 value. -/
def u64Cap : Nat := 2 ^ 64 - 1

/-- u64 saturating_add. -/
def satAdd (a b : Nat) : Nat := min (a + b) u64Cap

/-- The running total computed by the collection loop of
prune_cache_if_needed, a u64 accumulated with saturating_add in
directory order. -/
def totalSize (files : List CacheFile) : Nat :=
  files.foldl (fun t f => satAdd t f.size) 0

/-- Exact byte total of a list of files. -/
def exactSize (files : List CacheFile) : Nat :=
  (files.map CacheFile.size).sum

/-- Stable insertion into a list sorted by ascending mtime. -/
def insertByMtime (f : CacheFile) : List CacheFile → List CacheFile
  | [] => [f]
  | g :: t => if f.mtime ≤ g.mtime then f :: g :: t else g :: insertByMtime f t

/-- files.sort_by_key by modification time: stable, ascending. -/
def sortByMtime : List CacheFile → List CacheFile
  | [] => []
  | f :: t => insertByMtime f (sortByMtime t)

/-- Deletion loop of prune_cache_if_needed over the mtime-sorted list,
carrying the running total (decremented with saturating_sub, which on
Nat is plain subtraction). deleteOk tells whether remove_file succeeds
for a path; a failed deletion keeps the file and leaves the total
unchanged. Returns the files remaining. -/
def pruneLoop (maxBytes : Nat) (deleteOk : String → Bool) :
    List CacheFile → Nat → List CacheFile
  | [], _ => []
  | f :: rest, total =>
    if total ≤ maxBytes then f :: rest
    else if deleteOk f.path then pruneLoop maxBytes deleteOk rest (total - f.size)
    else f :: pruneLoop maxBytes deleteOk rest total

/-- prune_cache_if_needed: zero bound means unbounded; if the saturated
total exceeds the bound, delete oldest-first until at or below it.
The result is the list of files left in the cache directory. -/
def prune_cache_if_needed (maxBytes : Nat) (deleteOk : String → Bool)
    (files : List CacheFile) : List CacheFile :=
  if maxBytes = 0 then files
  else
    let total := totalSize files
    if total ≤ maxBytes then files
    else pruneLoop maxBytes deleteOk (sortByMtime files) total

/-- max_cache_bytes: the configured maxCacheGB (u32) times 2 to the 30,
or the 10 GiB default when the configuration cannot be read. -/
def max_cache_bytes (cfgMaxCacheGB : Option Nat) : Nat :=
  match cfgMaxCacheGB with
  | some gb => gb * 1024 * 1024 * 1024
  | none => 10 * 1024 * 1024 * 1024

/- Browser detection, ytdlp.rs detect_installed_browsers. The probe of
the filesystem or of the which command is the oracle found; the probe
order and the priority order are the arrays of the source. -/

/-- Windows probe order, the browsers array of the windows variant. -/
def windows_probe_order : List String :=
  ["chrome", "edge", "firefox", "vivaldi", "opera", "brave", "whale"]

/-- Windows priority_order array. -/
def windows_priority_order : List String :=
  ["firefox", "whale", "chrome", "edge", "vivaldi", "opera", "brave"]

/-- macOS probe order, the browser_paths array of the macos variant. -/
def macos_probe_order : List String :=
  ["chrome", "edge", "firefox", "vivaldi", "opera", "brave", "whale", "safari"]

/-- macOS priority_order array. -/
def macos_priority_order : List String :=
  ["chrome", "edge", "firefox", "vivaldi", "opera", "brave", "whale", "safari"]

/-- Linux probe order, the browser_commands array of the linux variant. -/
def linux_probe_order : List String :=
  ["chrome", "chromium", "edge", "firefox", "vivaldi", "opera", "brave"]

/-- Linux priority_order array. -/
def linux_priority_order : List String :=
  ["chrome", "edge", "firefox", "vivaldi", "opera", "brave", "chromium"]

/-- Sort key of installed.sort_by_key: position in the priority array,
with unwrap_or 999. -/
def priorityKey (prio : List String) (b : String) : Nat :=
  (prio.findIdx? (fun x => x == b)).getD 999

/-- Stable insertion by ascending key. -/
def insertByKey (key : String → Nat) (b : String) : List String → List String
  | [] => [b]
  | c :: t => if key b ≤ key c then b :: c :: t else c :: insertByKey key b t

/-- Stable sort by ascending key, matching Vec::sort_by_key. -/
def sortByPriority (prio : List String) : List String → List String
  | [] => []
  | b :: t => insertByKey (priorityKey prio) b (sortByPriority prio t)

/-- detect_installed_browsers, Windows variant: found b tells whether one
of the probed install paths of browser b exists. -/
def detect_installed_browsers_windows (found : String → Bool) : List String :=
  sortByPriority windows_priority_order (windows_probe_order.filter found)

/-- detect_installed_browsers, macOS variant. -/
def detect_installed_browsers_macos (found : String → Bool) : List String :=
  sortByPriority macos_priority_order (macos_probe_order.filter found)

/-- detect_installed_browsers, Linux variant. -/
def detect_installed_browsers_linux (found : String → Bool) : List String :=
  sortByPriority linux_priority_order (linux_probe_order.filter found)

/- The acquisition machine: download_video, try_download_video and the
task spawned by start_or_subscribe, as a pure function of an environment
describing the external world. -/

/-- Credential passed to the extractor: none, a cookies.txt path via
--cookies, or a browser tag via --cookies-from-browser. -/
inductive Credential
  | noCred
  | cookieFile (path : String)
  | browser (tag : String)
deriving DecidableEq, Repr

/-- Observable behaviour of one extractor child invocation: a spawn
failure message when Command::spawn fails, otherwise the stdout lines,
the exit outcome, the stderr lines, the Display rendering of the exit
status, and the first cache file found by the post-exit directory scan. -/
structure AttemptOutcome where
  spawnErr : Option String
  stdoutLines : List String
  exitSuccess : Bool
  stderrLines : List String
  statusDisplay : String
  foundFile : Option String

/-- Captures of the progress regex on one stdout line, as delivered by
the external regex engine plus f32 parsing: the percent value, its
source text rendered with one decimal, the speed and the eta strings. -/
structure RegexCapture where
  percent : Rat
  percentFmt : String
  speed : String
  eta : String

/-- Environment of one acquisition: the initial video_path existence
check, the parsed configuration cookiesFile field (none when the
configuration cannot be read), path existence for the cookie file, the
detect_installed_browsers result, the outcome of the child invocation
per credential, and the regex engine. -/
structure DlEnv where
  videoExistsAtStart : Bool
  configCookiesFile : Option String
  credPathExists : String → Bool
  installedBrowsers : List String
  attempt : Credential → AttemptOutcome
  parseLine : String → Option RegexCapture

/-- get_cookies_file_path: the configured cookiesFile when non-empty. -/
def get_cookies_file_path (env : DlEnv) : Option String :=
  match env.configCookiesFile with
  | some s => if s = "" then none else some s
  | none => none

/-- is_age_restriction_error in ytdlp.rs. -/
def is_age_restriction_error (m : String) : Bool :=
  strContainsSub m "Sign in to confirm your age" ||
  strContainsSub m "age-restricted" ||
  strContainsSub m "confirm your age" ||
  strContainsSub m "inappropriate for some users" ||
  strContainsSub m "--cookies-from-browser"

/-- Events published by the stdout reader task for one line: a
downloading event when the progress regex matches, then a processing
event when the line mentions the merger, audio extraction or deletion
markers. -/
def lineEvents (env : DlEnv) (vid : String) (line : String) : List DownloadProgress :=
  (match env.parseLine line with
   | some c => [⟨vid, .downloading, some c.percent, some c.speed, some c.eta,
       some ("Downloading: " ++ c.percentFmt ++ "%")⟩]
   | none => []) ++
  (if strContainsSub line "[Merger]" || strContainsSub line "[ExtractAudio]" ||
      strContainsSub line "Deleting" then
    [⟨vid, .processing, some 99, none, none, some "Processing..."⟩]
   else [])

/-- Initial checking message of try_download_video. -/
def checkingMessage : Credential → String
  | .cookieFile _ => "Checking video with cookies.txt..."
  | .browser b => "Checking video with " ++ b ++ " cookies..."
  | .noCred => "Checking video availability..."

/-- Error event with no percent, speed or eta. -/
def errEvent (vid msg : String) : DownloadProgress :=
  ⟨vid, .error, none, none, none, some msg⟩

/-- Completed event carrying the public URL of the found file. -/
def completedEvent (vid name : String) : DownloadProgress :=
  ⟨vid, .completed, some 100, none, none, some (fileUrl name)⟩

/-- try_download_video: publish the checking event, spawn the child,
publish the stdout-derived events, then on a successful exit either
return the first file whose name starts with the id (publishing the
completed event) or fail without an event; on a failed exit publish and
return the stderr text as the error. Result: events published on the
broadcast, and the Ok file name or Err message. -/
def try_download_video (env : DlEnv) (vid : String) (cred : Credential) :
    List DownloadProgress × Except String String :=
  let ev0 : DownloadProgress :=
    ⟨vid, .checking, some 0, none, none, some (checkingMessage cred)⟩
  let o := env.attempt cred
  match o.spawnErr with
  | some m => ([ev0], .error m)
  | none =>
    let outEvents := (o.stdoutLines.map (lineEvents env vid)).flatten
    if o.exitSuccess then
      match o.foundFile with
      | some name => ([ev0] ++ outEvents ++ [completedEvent vid name], .ok name)
      | none => ([ev0] ++ outEvents, .error "Downloaded file not found")
    else
      let combined := String.intercalate "\n" o.stderrLines
      let errMsg :=
        if combined = "" then "yt-dlp exited with status: " ++ o.statusDisplay
        else "ERROR: " ++ combined
      ([ev0] ++ outEvents ++ [errEvent vid errMsg], .error errMsg)

/-- Error message of the branch with no browsers and no cookie file. -/
def noBrowserMsg : String :=
  "Age-restricted video. No cookies.txt or supported browsers found. Please set a cookies.txt file in Settings."

/-- Error event message after every credential failed. -/
def exhaustedMsg : String :=
  "Age-restricted video. Please set a valid cookies.txt file in Settings. See the help (?) for instructions."

/-- Err value returned after every credential failed. -/
def exhaustedErr : String :=
  "Failed to download age-restricted video. Please configure cookies.txt file."

/-- The per-browser retry loop of download_video: before each browser,
publish a checking event naming it, run try_download_video with its
cookies, stop at the first success. Result: events, credentials
attempted in order, and the found file name on success. -/
def browserLoop (env : DlEnv) (vid : String) :
    List String → List DownloadProgress × List Credential × Option String
  | [] => ([], [], none)
  | b :: rest =>
    let evB : DownloadProgress :=
      ⟨vid, .checking, some 0, none, none, some ("Trying with " ++ b ++ " cookies...")⟩
    let (ev, r) := try_download_video env vid (.browser b)
    match r with
    | .ok name => (evB :: ev, [.browser b], some name)
    | .error _ =>
      let (evs, creds, res) := browserLoop env vid rest
      (evB :: (ev ++ evs), .browser b :: creds, res)

/-- Tail of download_video after the cookie-file phase: the guard
returning the original error when no browser is installed and no cookie
file is configured, else the browser loop followed by the exhausted
error. accEv and accCred are the events and credentials so far, cf the
get_cookies_file_path value, origErr the error of the first attempt. -/
def afterCookiePhase (env : DlEnv) (vid : String) (accEv : List DownloadProgress)
    (accCred : List Credential) (cf : Option String) (origErr : String) :
    List DownloadProgress × List Credential × Except String String :=
  if env.installedBrowsers = [] ∧ cf = none then
    (accEv ++ [errEvent vid noBrowserMsg], accCred, .error origErr)
  else
    let (evs, creds, res) := browserLoop env vid env.installedBrowsers
    match res with
    | some name => (accEv ++ evs, accCred ++ creds, .ok name)
    | none =>
      (accEv ++ evs ++ [errEvent vid exhaustedMsg], accCred ++ creds,
        .error exhaustedErr)

/-- download_video: immediately publish already-exists when video_path
exists; otherwise attempt without credentials, and on an age-restricted
error walk the cookie file (when configured and present) then the
detected browsers. Result: events published, credentials attempted in
order, and the Ok file name or Err message. -/
def download_video (env : DlEnv) (vid : String) :
    List DownloadProgress × List Credential × Except String String :=
  if env.videoExistsAtStart then
    ([⟨vid, .alreadyExists, some 100, none, none, some "Video already downloaded"⟩],
      [], .ok (vid ++ ".webm"))
  else
    let (ev0, r0) := try_download_video env vid .noCred
    match r0 with
    | .ok name => (ev0, [.noCred], .ok name)
    | .error e =>
      if is_age_restriction_error e then
        match get_cookies_file_path env with
        | some p =>
          if env.credPathExists p then
            let evC : DownloadProgress :=
              ⟨vid, .checking, some 0, none, none, some "Trying with cookies.txt file..."⟩
            let (ev1, r1) := try_download_video env vid (.cookieFile p)
            match r1 with
            | .ok name => (ev0 ++ [evC] ++ ev1, [.noCred, .cookieFile p], .ok name)
            | .error _ =>
              afterCookiePhase env vid (ev0 ++ [evC] ++ ev1)
                [.noCred, .cookieFile p] (some p) e
          else afterCookiePhase env vid ev0 [.noCred] (some p) e
        | none => afterCookiePhase env vid ev0 [.noCred] none e
      else (ev0, [.noCred], .error e)

/-- The acquisition task spawned by start_or_subscribe: run
download_video and, when it returns Err, publish one final Error event
with the error text. The result is the full sequence of events published
on the id broadcast by this acquisition. -/
def acquisition_events (env : DlEnv) (vid : String) : List DownloadProgress :=
  let (evs, _, r) := download_video env vid
  match r with
  | .ok _ => evs
  | .error e => evs ++ [errEvent vid e]

/-- Credentials attempted by download_video, in order. -/
def attempted_credentials (env : DlEnv) (vid : String) : List Credential :=
  (download_video env vid).2.1

/-- The ordered credential list of claim C4: the configured cookie file
when its path is non-empty and the file exists, then each detected
browser. -/
def ordered_credentials (env : DlEnv) : List Credential :=
  (match get_cookies_file_path env with
   | some p => if env.credPathExists p then [Credential.cookieFile p] else []
   | none => []) ++ env.installedBrowsers.map Credential.browser

/-- Prefix of a credential list up to and including the first success. -/
def takeThroughFirstOk (ok : Credential → Bool) : List Credential → List Credential
  | [] => []
  | c :: t => if ok c then [c] else c :: takeThroughFirstOk ok t

/-- Whether the child invocation with this credential succeeds. -/
def credSucceeds (env : DlEnv) (vid : String) (c : Credential) : Bool :=
  match (try_download_video env vid c).2 with
  | .ok _ => true
  | .error _ => false

/-- Keep the names whose flag is set, in order; used to state the
browser-sort computations over all combinations of probe outcomes. -/
def bitFilter (l : List (String × Bool)) : List String :=
  (l.filter (fun p => p.2)).map (fun p => p.1)

/-- Environment of an acquisition whose only extractor attempt fails
with a plain (not age-restricted) error. -/
def envFailPlain : DlEnv :=
  { videoExistsAtStart := false
    configCookiesFile := none
    credPathExists := fun _ => false
    installedBrowsers := []
    attempt := fun _ => ⟨none, [], false, ["boom"], "exit status: 1", none⟩
    parseLine := fun _ => none }

/-- Environment where the credential-less attempt fails age-restricted,
a cookie file is configured and present but fails, and the second
detected browser is never reached because the first succeeds. -/
def envAgeRestricted : DlEnv :=
  { videoExistsAtStart := false
    configCookiesFile := some "/ck.txt"
    credPathExists := fun _ => true
    installedBrowsers := ["firefox", "whale"]
    attempt := fun c =>
      match c with
      | .browser "firefox" => ⟨none, [], true, [], "", some "abc.webm"⟩
      | _ => ⟨none, [], false, ["Sign in to confirm your age"], "", none⟩
    parseLine := fun _ => none }

/-- Environment where video_path already exists when download_video
starts. -/
def envCacheHit : DlEnv :=
  { videoExistsAtStart := true
    configCookiesFile := none
    credPathExists := fun _ => false
    installedBrowsers := []
    attempt := fun _ => ⟨none, [], false, [], "", none⟩
    parseLine := fun _ => none }

/-- The message discipline of claim C9, amended: a completed event
carries a public URL of the static route; an already-exists event
carries the fixed human string. -/
def eventMessageOk (e : DownloadProgress) : Prop :=
  (e.status = .completed → ∃ name, e.message = some (fileUrl name)) ∧
  (e.status = .alreadyExists → e.message = some "Video already downloaded")

/-- Environment of an acquisition whose credential-less attempt succeeds
at once, producing the file abc.webm. -/
def envSuccess : DlEnv :=
  { videoExistsAtStart := false
    configCookiesFile := none
    credPathExists := fun _ => false
    installedBrowsers := []
    attempt := fun _ => ⟨none, [], true, [], "", some "abc.webm"⟩
    parseLine := fun _ => none }

/- Theorems. -/

/-- C1: the interleaving in which both pending calls run their lookup
critical section (both miss) before either runs its insert critical
section ends with two spawned download tasks for the id and the two
callers holding receivers of two different broadcast channels, the
second insert having replaced the first registry entry. This refutes
single-flight: the lookup and the insert of start_or_subscribe are
separate critical sections of the in_progress mutex. -/
theorem C1_single_flight_race :
    sfRun sfInit [0, 1, 0, 1] =
      ⟨[("abc", 1)], 2, [("abc", 0), ("abc", 1)],
        [("abc", .done 0), ("abc", .done 1)]⟩ ∧
    (sfRun sfInit [0, 1, 0, 1]).spawned.length = 2 := by decide

/-- C2: counterexample. When the single extractor attempt fails with a
plain error, the broadcast carries two Error events: one published by
try_download_video and one published by the coordinator task on the Err
result. A subscriber joining at the start receives two terminal events,
refuting exactly-one. -/
theorem C2_duplicate_terminal_counterexample :
    acquisition_events envFailPlain "abc" =
      [⟨"abc", .checking, some 0, none, none, some "Checking video availability..."⟩,
       errEvent "abc" "ERROR: boom", errEvent "abc" "ERROR: boom"] ∧
    (acquisition_events envFailPlain "abc").countP (fun e => e.status.isTerminal) = 2 := by
  decide

/-- C3: counterexample. With the cache directory holding only abc.mp4,
the authoritative prefix scan finds a file for id abc but video_exists
reports a miss: the fast path does not agree with the scan on non-webm
extensions. -/
theorem C3_fast_path_counterexample :
    video_exists ["abc.mp4"] "abc" = false ∧
    (find_video_file ["abc.mp4"] "abc").isSome = true := by decide

/-- The name id ++ ext starts with id. -/
theorem strStartsWith_self_append (vid ext : String) :
    strStartsWith (vid ++ ext) vid = true := by
  unfold strStartsWith
  rw [String.data_append, List.isPrefixOf_iff_prefix]
  exact List.prefix_append _ _

/-- C3 (amended): the exact webm fast path only implies the
authoritative test: whenever video_exists holds, the directory scan
finds a file whose name begins with the id; the converse fails (see the
counterexample), so a cached non-webm file is reported as a miss by
video_exists. -/
theorem C3_fast_path_implies_scan (files : List String) (vid : String)
    (h : video_exists files vid = true) :
    (find_video_file files vid).isSome = true := by
  unfold video_exists at h
  unfold find_video_file
  rw [List.find?_isSome]
  exact ⟨vid ++ ".webm", List.mem_of_elem_eq_true h,
    strStartsWith_self_append vid ".webm"⟩

/-- C3: witness for the amended implication at a concrete cache. -/
theorem C3_fast_path_implies_scan_witness :
    video_exists ["abc.webm"] "abc" = true ∧
    (find_video_file ["abc.webm"] "abc").isSome = true :=
  ⟨by decide, C3_fast_path_implies_scan ["abc.webm"] "abc" (by decide)⟩

/-- C6: counterexample. With bound 1 byte (non-zero) and a single cache
file of size 2 — necessarily the file with the youngest modification
time — the pruning pass deletes it: the youngest file is evicted when
its own size exceeds the bound. -/
theorem C6_youngest_evicted_counterexample :
    (1 : Nat) ≠ 0 ∧
    prune_cache_if_needed 1 (fun _ => true) [⟨"a", 5, 2⟩] = [] := by decide

/-- C7: counterexample. For /video/status with the invalid (empty) id
the response is HTTP 200 with success false, not 400: handle_video_status
performs no id validation. -/
theorem C7_status_no_validation_counterexample :
    rustTrim "" = "" ∧
    (handle_video_status [] "").1 = 200 ∧
    (handle_video_status [] "").1 ≠ 400 ∧
    (handle_video_status [] "").2.success = false := by decide

/-- C9: counterexample. The already-exists event published by
download_video carries the fixed message Video already downloaded, which
is not a URL under the static route, refuting the claim for the
already-exists status. -/
theorem C9_already_exists_message_counterexample :
    acquisition_events envCacheHit "abc" =
      [⟨"abc", .alreadyExists, some 100, none, none, some "Video already downloaded"⟩] ∧
    strStartsWith "Video already downloaded" "http://localhost:15123/video/files/" = false := by
  decide

/-- C10: counterexample. The id consisting of one ideographic space
(U+3000, Unicode whitespace but not ASCII whitespace) is unchanged by
ASCII trimming, yet the handler rejects it as empty: the source trims
the full Unicode whitespace set, and its behaviour diverges from the
ASCII-trim reading of the claim at this input. -/
theorem C10_ascii_trim_counterexample :
    asciiTrim "　" = "　" ∧
    handle_video_request [] "　" = .badRequest ⟨false, "", none, some "Invalid video ID"⟩ ∧
    handle_video_request_ascii_spec [] "　" = .sse "　" := by decide

/-- Windows sort computation over all combinations of probe outcomes:
sorting the probe-order filter by the priority key yields the
priority-order filter. -/
theorem winSortKey : ∀ bc be bf bv bo bb bw : Bool,
    sortByPriority windows_priority_order
      (bitFilter [("chrome", bc), ("edge", be), ("firefox", bf), ("vivaldi", bv),
        ("opera", bo), ("brave", bb), ("whale", bw)]) =
    bitFilter [("firefox", bf), ("whale", bw), ("chrome", bc), ("edge", be),
      ("vivaldi", bv), ("opera", bo), ("brave", bb)] := by decide

/-- macOS sort computation over all combinations of probe outcomes. -/
theorem macSortKey : ∀ bc be bf bv bo bb bw bs : Bool,
    sortByPriority macos_priority_order
      (bitFilter [("chrome", bc), ("edge", be), ("firefox", bf), ("vivaldi", bv),
        ("opera", bo), ("brave", bb), ("whale", bw), ("safari", bs)]) =
    bitFilter [("chrome", bc), ("edge", be), ("firefox", bf), ("vivaldi", bv),
      ("opera", bo), ("brave", bb), ("whale", bw), ("safari", bs)] := by decide

/-- Linux sort computation over all combinations of probe outcomes. -/
theorem linuxSortKey : ∀ bc bcr be bf bv bo bb : Bool,
    sortByPriority linux_priority_order
      (bitFilter [("chrome", bc), ("chromium", bcr), ("edge", be), ("firefox", bf),
        ("vivaldi", bv), ("opera", bo), ("brave", bb)]) =
    bitFilter [("chrome", bc), ("edge", be), ("firefox", bf), ("vivaldi", bv),
      ("opera", bo), ("brave", bb), ("chromium", bcr)] := by decide

/-- bitFilter over paired flags computes List.filter. -/
theorem bitFilter_map (f : String → Bool) :
    ∀ l : List String, bitFilter (l.map (fun s => (s, f s))) = l.filter f := by
  intro l
  induction l with
  | nil => rfl
  | cons a t ih =>
    simp only [List.map_cons, bitFilter, List.filter_cons] at *
    cases h : f a <;> simp_all [bitFilter]

/-- Windows detection returns exactly the found browsers in the priority
order firefox, whale, chrome, edge, vivaldi, opera, brave. -/
theorem detect_windows_eq (f : String → Bool) :
    detect_installed_browsers_windows f = windows_priority_order.filter f := by
  have h := winSortKey (f "chrome") (f "edge") (f "firefox") (f "vivaldi")
    (f "opera") (f "brave") (f "whale")
  have h1 : windows_probe_order.filter f =
      bitFilter [("chrome", f "chrome"), ("edge", f "edge"), ("firefox", f "firefox"),
        ("vivaldi", f "vivaldi"), ("opera", f "opera"), ("brave", f "brave"),
        ("whale", f "whale")] := by
    have hm := bitFilter_map f windows_probe_order
    simp only [windows_probe_order, List.map_cons, List.map_nil] at hm
    exact hm.symm
  have h2 : windows_priority_order.filter f =
      bitFilter [("firefox", f "firefox"), ("whale", f "whale"), ("chrome", f "chrome"),
        ("edge", f "edge"), ("vivaldi", f "vivaldi"), ("opera", f "opera"),
        ("brave", f "brave")] := by
    have hm := bitFilter_map f windows_priority_order
    simp only [windows_priority_order, List.map_cons, List.map_nil] at hm
    exact hm.symm
  rw [detect_installed_browsers_windows, h1, h2]
  exact h

/-- macOS detection returns exactly the found browsers in the priority
order chrome, edge, firefox, vivaldi, opera, brave, whale, safari. -/
theorem detect_macos_eq (f : String → Bool) :
    detect_installed_browsers_macos f = macos_priority_order.filter f := by
  have h := macSortKey (f "chrome") (f "edge") (f "firefox") (f "vivaldi")
    (f "opera") (f "brave") (f "whale") (f "safari")
  have h1 : macos_probe_order.filter f =
      bitFilter [("chrome", f "chrome"), ("edge", f "edge"), ("firefox", f "firefox"),
        ("vivaldi", f "vivaldi"), ("opera", f "opera"), ("brave", f "brave"),
        ("whale", f "whale"), ("safari", f "safari")] := by
    have hm := bitFilter_map f macos_probe_order
    simp only [macos_probe_order, List.map_cons, List.map_nil] at hm
    exact hm.symm
  have h2 : macos_priority_order.filter f =
      bitFilter [("chrome", f "chrome"), ("edge", f "edge"), ("firefox", f "firefox"),
        ("vivaldi", f "vivaldi"), ("opera", f "opera"), ("brave", f "brave"),
        ("whale", f "whale"), ("safari", f "safari")] := by
    have hm := bitFilter_map f macos_priority_order
    simp only [macos_priority_order, List.map_cons, List.map_nil] at hm
    exact hm.symm
  rw [detect_installed_browsers_macos, h1, h2]
  exact h

/-- Linux detection returns exactly the found browsers in the priority
order chrome, edge, firefox, vivaldi, opera, brave, chromium. -/
theorem detect_linux_eq (f : String → Bool) :
    detect_installed_browsers_linux f = linux_priority_order.filter f := by
  have h := linuxSortKey (f "chrome") (f "chromium") (f "edge") (f "firefox")
    (f "vivaldi") (f "opera") (f "brave")
  have h1 : linux_probe_order.filter f =
      bitFilter [("chrome", f "chrome"), ("chromium", f "chromium"), ("edge", f "edge"),
        ("firefox", f "firefox"), ("vivaldi", f "vivaldi"), ("opera", f "opera"),
        ("brave", f "brave")] := by
    have hm := bitFilter_map f linux_probe_order
    simp only [linux_probe_order, List.map_cons, List.map_nil] at hm
    exact hm.symm
  have h2 : linux_priority_order.filter f =
      bitFilter [("chrome", f "chrome"), ("edge", f "edge"), ("firefox", f "firefox"),
        ("vivaldi", f "vivaldi"), ("opera", f "opera"), ("brave", f "brave"),
        ("chromium", f "chromium")] := by
    have hm := bitFilter_map f linux_priority_order
    simp only [linux_priority_order, List.map_cons, List.map_nil] at hm
    exact hm.symm
  rw [detect_installed_browsers_linux, h1, h2]
  exact h

/-- The credentials recorded by the browser retry loop are the mapped
browsers up to and including the first success. -/
theorem browserLoop_creds (env : DlEnv) (vid : String) :
    ∀ bs : List String,
      (browserLoop env vid bs).2.1 =
        takeThroughFirstOk (credSucceeds env vid) (bs.map Credential.browser) := by
  intro bs
  induction bs with
  | nil => rfl
  | cons b rest ih =>
    rcases h : try_download_video env vid (.browser b) with ⟨ev, r⟩
    have h2 : (try_download_video env vid (.browser b)).2 = r := by rw [h]
    simp only [browserLoop, List.map_cons, takeThroughFirstOk, h]
    cases r with
    | ok name =>
      have hs : credSucceeds env vid (.browser b) = true := by
        unfold credSucceeds
        rw [h2]
      simp [hs]
    | error e =>
      have hs : credSucceeds env vid (.browser b) = false := by
        unfold credSucceeds
        rw [h2]
      rcases hb : browserLoop env vid rest with ⟨evs, creds, res⟩
      simp only [hb] at ih
      simp [hs, hb, ih]

/-- Credentials recorded after the cookie phase: the accumulator followed
by the browsers up to and including the first success. -/
theorem afterCookie_creds (env : DlEnv) (vid : String) (accEv : List DownloadProgress)
    (accCred : List Credential) (cf : Option String) (origErr : String) :
    (afterCookiePhase env vid accEv accCred cf origErr).2.1 =
      accCred ++ takeThroughFirstOk (credSucceeds env vid)
        (env.installedBrowsers.map Credential.browser) := by
  unfold afterCookiePhase
  by_cases hcond : env.installedBrowsers = [] ∧ cf = none
  · simp [hcond, hcond.1, takeThroughFirstOk]
  · rcases hb : browserLoop env vid env.installedBrowsers with ⟨evs, creds, res⟩
    have hc := browserLoop_creds env vid env.installedBrowsers
    simp only [hb] at hc
    cases res <;> simp [hcond, hb, hc]

/-- C4: on a cache miss whose credential-less attempt fails with an
age-restricted error, the credentials attempted by download_video are
the configured cookie file first (when its path is non-empty and the
file exists) followed by the installed browsers, in order, stopping at
the first success; and on each platform detect_installed_browsers
returns exactly the found browsers in the priority order stated by the
claim (Windows: firefox, whale, chrome, edge, vivaldi, opera, brave;
macOS: chrome, edge, firefox, vivaldi, opera, brave, whale, safari;
Linux: chrome, edge, firefox, vivaldi, opera, brave, chromium). -/
theorem C4_credential_order (env : DlEnv) (vid e : String)
    (h1 : env.videoExistsAtStart = false)
    (h2 : (try_download_video env vid .noCred).2 = .error e)
    (h3 : is_age_restriction_error e = true) :
    (∀ f, detect_installed_browsers_windows f = windows_priority_order.filter f) ∧
    (∀ f, detect_installed_browsers_macos f = macos_priority_order.filter f) ∧
    (∀ f, detect_installed_browsers_linux f = linux_priority_order.filter f) ∧
    attempted_credentials env vid =
      .noCred :: takeThroughFirstOk (credSucceeds env vid) (ordered_credentials env) := by
  refine ⟨detect_windows_eq, detect_macos_eq, detect_linux_eq, ?_⟩
  unfold attempted_credentials download_video
  rcases h0 : try_download_video env vid .noCred with ⟨ev0, r0⟩
  have hr0 : r0 = .error e := by rw [h0] at h2; exact h2
  subst hr0
  simp only [h0, h1, Bool.false_eq_true, if_false, h3, if_true]
  rcases hc : get_cookies_file_path env with _ | p
  · rw [afterCookie_creds]
    simp [ordered_credentials, hc]
  · by_cases hp : env.credPathExists p = true
    · rcases h1' : try_download_video env vid (.cookieFile p) with ⟨ev1, r1⟩
      have h2' : (try_download_video env vid (.cookieFile p)).2 = r1 := by rw [h1']
      cases r1 with
      | ok name =>
        have hs : credSucceeds env vid (.cookieFile p) = true := by
          unfold credSucceeds
          rw [h2']
        simp [hp, h1', ordered_credentials, hc, takeThroughFirstOk, hs]
      | error e1 =>
        have hs : credSucceeds env vid (.cookieFile p) = false := by
          unfold credSucceeds
          rw [h2']
        simp only [hp, if_true, h1']
        rw [afterCookie_creds]
        simp [ordered_credentials, hc, hp, takeThroughFirstOk, hs]
    · simp only [Bool.not_eq_true] at hp
      simp only [hp, Bool.false_eq_true, if_false]
      rw [afterCookie_creds]
      simp [ordered_credentials, hc, hp, takeThroughFirstOk]

/-- C4: witness. In the age-restricted environment with a configured and
present cookie file and the detected browsers firefox then whale, the
hypotheses hold and the attempted credentials are the credential-less
attempt, the cookie file, then firefox, at which the chain stops. -/
theorem C4_credential_order_witness :
    envAgeRestricted.videoExistsAtStart = false ∧
    (try_download_video envAgeRestricted "abc" .noCred).2 =
      .error "ERROR: Sign in to confirm your age" ∧
    is_age_restriction_error "ERROR: Sign in to confirm your age" = true ∧
    attempted_credentials envAgeRestricted "abc" =
      [.noCred, .cookieFile "/ck.txt", .browser "firefox"] :=
  ⟨by decide, by rfl, by decide, by
    have h := (C4_credential_order envAgeRestricted "abc"
      "ERROR: Sign in to confirm your age" (by decide) (by rfl) (by decide)).2.2.2
    rw [h]
    decide⟩

/-- Byte total of a cons. -/
theorem exactSize_cons (f : CacheFile) (l : List CacheFile) :
    exactSize (f :: l) = f.size + exactSize l := by
  simp [exactSize]

/-- Byte total of an append. -/
theorem exactSize_append (l m : List CacheFile) :
    exactSize (l ++ m) = exactSize l + exactSize m := by
  simp [exactSize]

/-- The saturating fold agrees with the exact total while it fits u64. -/
theorem foldl_satAdd (l : List CacheFile) :
    ∀ acc, acc + exactSize l ≤ u64Cap →
      l.foldl (fun t f => satAdd t f.size) acc = acc + exactSize l := by
  induction l with
  | nil => intro acc h; simp [exactSize]
  | cons f t ih =>
    intro acc h
    rw [exactSize_cons] at h
    have h2 : satAdd acc f.size = acc + f.size := by
      unfold satAdd
      omega
    simp only [List.foldl_cons, h2]
    have := ih (acc + f.size) (by omega)
    rw [this, exactSize_cons]
    omega

/-- The collection-loop total equals the exact total while it fits u64. -/
theorem totalSize_eq_exact (l : List CacheFile) (h : exactSize l ≤ u64Cap) :
    totalSize l = exactSize l := by
  have := foldl_satAdd l 0 (by omega)
  simpa [totalSize] using this

/-- Insertion preserves the byte total. -/
theorem exactSize_insertByMtime (f : CacheFile) :
    ∀ l, exactSize (insertByMtime f l) = f.size + exactSize l := by
  intro l
  induction l with
  | nil => simp [insertByMtime, exactSize]
  | cons g t ih =>
    unfold insertByMtime
    by_cases h : f.mtime ≤ g.mtime
    · simp [h, exactSize_cons]
    · simp only [h, if_false, exactSize_cons, ih]
      omega

/-- Sorting preserves the byte total. -/
theorem exactSize_sortByMtime : ∀ l, exactSize (sortByMtime l) = exactSize l := by
  intro l
  induction l with
  | nil => rfl
  | cons f t ih => rw [sortByMtime, exactSize_insertByMtime, ih, exactSize_cons]

/-- Membership in an insertion. -/
theorem mem_insertByMtime (x f : CacheFile) :
    ∀ l, x ∈ insertByMtime f l ↔ x = f ∨ x ∈ l := by
  intro l
  induction l with
  | nil => simp [insertByMtime]
  | cons g t ih =>
    unfold insertByMtime
    by_cases h : f.mtime ≤ g.mtime
    · simp only [h, if_true, List.mem_cons]
    · simp only [h, if_false, List.mem_cons, ih]
      tauto

/-- Sorting preserves membership. -/
theorem mem_sortByMtime (x : CacheFile) : ∀ l, x ∈ sortByMtime l ↔ x ∈ l := by
  intro l
  induction l with
  | nil => simp [sortByMtime]
  | cons f t ih =>
    rw [sortByMtime, mem_insertByMtime, ih, List.mem_cons]

/-- Inserting a file younger than every element lands at the end. -/
theorem insert_all_lt (f : CacheFile) :
    ∀ m, (∀ g ∈ m, g.mtime < f.mtime) → insertByMtime f m = m ++ [f] := by
  intro m
  induction m with
  | nil => intro _; rfl
  | cons g t ih =>
    intro h
    have hg : g.mtime < f.mtime := h g (by simp)
    unfold insertByMtime
    have hne : ¬ f.mtime ≤ g.mtime := by omega
    simp only [hne, if_false, List.cons_append]
    rw [ih (fun x hx => h x (by simp [hx]))]

/-- Inserting an element no younger than the last keeps the last. -/
theorem insert_endsWith (x f : CacheFile) (hle : x.mtime ≤ f.mtime) :
    ∀ init, ∃ init2, insertByMtime x (init ++ [f]) = init2 ++ [f] := by
  intro init
  induction init with
  | nil =>
    simp only [List.nil_append, insertByMtime, hle, if_true]
    exact ⟨[x], rfl⟩
  | cons g t ih =>
    simp only [List.cons_append, insertByMtime]
    by_cases h : x.mtime ≤ g.mtime
    · exact ⟨x :: g :: (t ++ [f]).dropLast, by simp [h]⟩
    · obtain ⟨i2, hi2⟩ := ih
      refine ⟨g :: i2, ?_⟩
      simp [h, hi2]

/-- A file strictly younger than every other file of the list ends up
last in the mtime sort. -/
theorem sortByMtime_endsWith (f : CacheFile) :
    ∀ l, f ∈ l → (∀ g ∈ l, g ≠ f → g.mtime < f.mtime) →
      ∃ init, sortByMtime l = init ++ [f] := by
  intro l
  induction l with
  | nil => intro hf; cases hf
  | cons x t ih =>
    intro hf hmax
    rw [sortByMtime]
    by_cases hft : f ∈ t
    · obtain ⟨init, hinit⟩ := ih hft (fun g hg hne => hmax g (by simp [hg]) hne)
      rw [hinit]
      have hxle : x.mtime ≤ f.mtime := by
        by_cases hxf : x = f
        · subst hxf; exact le_refl _
        · exact le_of_lt (hmax x (by simp) hxf)
      exact insert_endsWith x f hxle init
    · have hfx : f = x := by
        rcases List.mem_cons.mp hf with h | h
        · exact h
        · exact absurd h hft
      subst hfx
      have hall : ∀ g ∈ sortByMtime t, g.mtime < f.mtime := by
        intro g hg
        have hgt : g ∈ t := (mem_sortByMtime g t).mp hg
        have hne : g ≠ f := fun hEq => hft (hEq ▸ hgt)
        exact hmax g (by simp [hgt]) hne
      exact ⟨sortByMtime t, insert_all_lt f (sortByMtime t) hall⟩

/-- With every deletion succeeding, the deletion loop leaves at most the
bound behind, given a truthful running total. -/
theorem pruneLoop_bound (maxB : Nat) (deleteOk : String → Bool)
    (hdel : ∀ p, deleteOk p = true) :
    ∀ l total, total = exactSize l →
      exactSize (pruneLoop maxB deleteOk l total) ≤ maxB := by
  intro l
  induction l with
  | nil => intro total _; simp [pruneLoop, exactSize]
  | cons f t ih =>
    intro total ht
    rw [exactSize_cons] at ht
    unfold pruneLoop
    by_cases h : total ≤ maxB
    · simp only [h, if_true]
      rw [exactSize_cons]
      omega
    · simp only [h, if_false, hdel f.path, if_true]
      exact ih (total - f.size) (by omega)

/-- With every deletion succeeding, the loop deletes a prefix of the
sorted list: the remaining files are a drop. -/
theorem pruneLoop_drop (maxB : Nat) (deleteOk : String → Bool)
    (hdel : ∀ p, deleteOk p = true) :
    ∀ l total, ∃ k, pruneLoop maxB deleteOk l total = l.drop k := by
  intro l
  induction l with
  | nil => intro total; exact ⟨0, rfl⟩
  | cons f t ih =>
    intro total
    unfold pruneLoop
    by_cases h : total ≤ maxB
    · exact ⟨0, by simp [h]⟩
    · obtain ⟨k, hk⟩ := ih (total - f.size)
      exact ⟨k + 1, by simp [h, hdel f.path, hk]⟩

/-- With every deletion succeeding and a truthful running total, the
last file of the list survives the loop when its own size fits the
bound. -/
theorem pruneLoop_keep_last (maxB : Nat) (deleteOk : String → Bool)
    (hdel : ∀ p, deleteOk p = true) (f : CacheFile) (hsize : f.size ≤ maxB) :
    ∀ init total, total = exactSize (init ++ [f]) →
      f ∈ pruneLoop maxB deleteOk (init ++ [f]) total := by
  intro init
  induction init with
  | nil =>
    intro total ht
    simp only [List.nil_append] at ht ⊢
    rw [exactSize_cons] at ht
    simp only [exactSize, List.map_nil, List.sum_nil] at ht
    unfold pruneLoop
    have hle : total ≤ maxB := by omega
    simp [hle]
  | cons g t ih =>
    intro total ht
    simp only [List.cons_append] at ht ⊢
    rw [exactSize_cons] at ht
    unfold pruneLoop
    by_cases h : total ≤ maxB
    · simp only [h, if_true]
      simp
    · simp only [h, if_false, hdel g.path, if_true]
      exact ih (total - g.size) (by omega)

/-- C5: when every attempted deletion succeeds and the exact cache total
fits u64 (so the saturating accumulation is exact), the pruning pass
with a non-zero bound leaves the cache at or below the bound; the
remaining files are either untouched or a suffix of the
ascending-mtime order (so deletions are oldest first); and with a zero
bound nothing is deleted. -/
theorem C5_prune_postcondition (cfg : Option Nat) (deleteOk : String → Bool)
    (files : List CacheFile)
    (hdel : ∀ p, deleteOk p = true)
    (hnof : exactSize files ≤ u64Cap) :
    (max_cache_bytes cfg ≠ 0 →
      exactSize (prune_cache_if_needed (max_cache_bytes cfg) deleteOk files) ≤
        max_cache_bytes cfg) ∧
    (prune_cache_if_needed (max_cache_bytes cfg) deleteOk files = files ∨
      ∃ k, prune_cache_if_needed (max_cache_bytes cfg) deleteOk files =
        (sortByMtime files).drop k) ∧
    (max_cache_bytes cfg = 0 →
      prune_cache_if_needed (max_cache_bytes cfg) deleteOk files = files) := by
  set maxB := max_cache_bytes cfg with hmB
  unfold prune_cache_if_needed
  by_cases h0 : maxB = 0
  · simp [h0]
  · simp only [h0, if_false]
    by_cases h1 : totalSize files ≤ maxB
    · simp only [h1, if_true]
      refine ⟨fun _ => ?_, Or.inl trivial, fun hz => hz.elim⟩
      rw [← totalSize_eq_exact files hnof]
      exact h1
    · simp only [h1, if_false]
      refine ⟨fun _ => ?_, Or.inr ?_, fun hz => hz.elim⟩
      · apply pruneLoop_bound maxB deleteOk hdel
        rw [totalSize_eq_exact files hnof, exactSize_sortByMtime]
      · exact pruneLoop_drop maxB deleteOk hdel (sortByMtime files) (totalSize files)

/-- C5: witness. Bound 1 GiB (maxCacheGB = 1), two files totalling
above the bound; after pruning the remaining total fits the bound. -/
theorem C5_prune_postcondition_witness :
    max_cache_bytes (some 1) ≠ 0 ∧
    exactSize (prune_cache_if_needed (max_cache_bytes (some 1)) (fun _ => true)
      [⟨"old", 1, 1073741824⟩, ⟨"new", 2, 600000000⟩]) ≤ max_cache_bytes (some 1) :=
  ⟨by decide, (C5_prune_postcondition (some 1) (fun _ => true)
    [⟨"old", 1, 1073741824⟩, ⟨"new", 2, 600000000⟩]
    (fun _ => rfl) (by decide)).1 (by decide)⟩

/-- C6 (amended): a file strictly younger than every other cache file —
in particular a freshly completed download — survives the pruning pass
provided its own size is at most the bound (and deletions succeed and
the total fits u64); when its size exceeds the bound it can be evicted,
as the counterexample shows. -/
theorem C6_youngest_kept_amended (maxB : Nat) (deleteOk : String → Bool)
    (files : List CacheFile) (f : CacheFile)
    (hmem : f ∈ files)
    (hmax : ∀ g ∈ files, g ≠ f → g.mtime < f.mtime)
    (hsize : f.size ≤ maxB)
    (hdel : ∀ p, deleteOk p = true)
    (hnof : exactSize files ≤ u64Cap) :
    f ∈ prune_cache_if_needed maxB deleteOk files := by
  unfold prune_cache_if_needed
  by_cases h0 : maxB = 0
  · simpa [h0] using hmem
  · simp only [h0, if_false]
    by_cases h1 : totalSize files ≤ maxB
    · simpa [h1] using hmem
    · simp only [h1, if_false]
      obtain ⟨init, hinit⟩ := sortByMtime_endsWith f files hmem hmax
      rw [hinit]
      apply pruneLoop_keep_last maxB deleteOk hdel f hsize
      rw [← hinit, exactSize_sortByMtime, ← totalSize_eq_exact files hnof]

/-- C6: witness. The strictly youngest of two files fits the bound and
survives the pass that evicts the older file. -/
theorem C6_youngest_kept_amended_witness :
    (⟨"new", 2, 7⟩ : CacheFile) ∈ [(⟨"old", 1, 8⟩ : CacheFile), ⟨"new", 2, 7⟩] ∧
    (⟨"new", 2, 7⟩ : CacheFile) ∈ prune_cache_if_needed 10 (fun _ => true)
      [⟨"old", 1, 8⟩, ⟨"new", 2, 7⟩] :=
  ⟨by decide, C6_youngest_kept_amended 10 (fun _ => true)
    [⟨"old", 1, 8⟩, ⟨"new", 2, 7⟩] ⟨"new", 2, 7⟩
    (by decide) (by decide) (by decide) (fun _ => rfl) (by decide)⟩

/-- The head surviving dropWhile fails the predicate. -/
theorem head_dropWhile_not (p : Char → Bool) :
    ∀ l : List Char, ∀ x ∈ (l.dropWhile p).head?, p x = false := by
  intro l
  induction l with
  | nil => intro x hx; cases hx
  | cons a t ih =>
    intro x hx
    rw [List.dropWhile_cons] at hx
    by_cases h : p a = true
    · rw [if_pos h] at hx
      exact ih x hx
    · rw [if_neg h] at hx
      simp only [List.head?_cons, Option.mem_some_iff] at hx
      subst hx
      exact Bool.not_eq_true _ |>.mp h

/-- dropWhile is the identity when the head fails the predicate. -/
theorem dropWhile_eq_self_of_head (p : Char → Bool) (l : List Char)
    (h : ∀ x ∈ l.head?, p x = false) : l.dropWhile p = l := by
  cases l with
  | nil => rfl
  | cons a t =>
    have ha : p a = false := h a (by simp)
    rw [List.dropWhile_cons, if_neg (by simp [ha])]

/-- dropWhile returns a tail of the list. -/
theorem dropWhile_is_suffix (p : Char → Bool) :
    ∀ l : List Char, ∃ t, t ++ l.dropWhile p = l := by
  intro l
  induction l with
  | nil => exact ⟨[], rfl⟩
  | cons a t ih =>
    rw [List.dropWhile_cons]
    by_cases h : p a = true
    · obtain ⟨u, hu⟩ := ih
      exact ⟨a :: u, by simp [h, hu]⟩
    · exact ⟨[], by simp [h]⟩

/-- Two-sided trimming is idempotent. -/
theorem trimCharList_idem (ws : Char → Bool) (l : List Char) :
    trimCharList ws (trimCharList ws l) = trimCharList ws l := by
  set u := l.dropWhile ws with hu
  set v := u.reverse.dropWhile ws with hv
  show trimCharList ws v.reverse = v.reverse
  unfold trimCharList
  have hA : v.reverse.dropWhile ws = v.reverse := by
    apply dropWhile_eq_self_of_head
    intro x hx
    rw [List.head?_reverse] at hx
    by_cases hvnil : v = []
    · rw [hvnil] at hx; cases hx
    · obtain ⟨t, ht⟩ := dropWhile_is_suffix ws u.reverse
      rw [← hv] at ht
      have hlast : v.getLast? = u.reverse.getLast? := by
        rw [← ht, List.getLast?_append_of_ne_nil t hvnil]
      rw [hlast, List.getLast?_reverse] at hx
      rw [hu] at hx
      exact head_dropWhile_not ws l x hx
  rw [hA, List.reverse_reverse]
  have hB : v.dropWhile ws = v := by
    rw [hv]
    apply dropWhile_eq_self_of_head
    exact head_dropWhile_not ws u.reverse
  rw [hB]

/-- str::trim is idempotent. -/
theorem rustTrim_idem (s : String) : rustTrim (rustTrim s) = rustTrim s := by
  unfold rustTrim
  exact congrArg String.mk (trimCharList_idem rustIsWhitespace s.data)

/-- Trimming a list of whitespace only gives the empty list. -/
theorem trimCharList_all_ws (ws : Char → Bool) (l : List Char)
    (h : ∀ c ∈ l, ws c = true) : trimCharList ws l = [] := by
  unfold trimCharList
  have h1 : l.dropWhile ws = [] := by
    rw [List.dropWhile_eq_nil_iff]
    intro x hx
    simp [h x hx]
  rw [h1]
  rfl

/-- C7 (amended): on /video/request an invalid id — empty after
trimming, or longer than twenty bytes — yields the 400 JSON body with
success false and no subscription is created; /video/status performs no
validation and answers 200 on every input (its success field merely
reflects cache existence, see the counterexample). -/
theorem C7_request_validation_amended (files : List String) (raw : String)
    (h : rustTrim raw = "" ∨ 20 < (rustTrim raw).utf8ByteSize) :
    handle_video_request files raw =
      .badRequest ⟨false, rustTrim raw, none, some "Invalid video ID"⟩ ∧
    (∀ i, handle_video_request files raw ≠ .sse i) ∧
    (handle_video_status files raw).1 = 200 := by
  have hreq : handle_video_request files raw =
      .badRequest ⟨false, rustTrim raw, none, some "Invalid video ID"⟩ := by
    unfold handle_video_request
    rw [if_pos h]
  refine ⟨hreq, fun i hi => ?_, rfl⟩
  rw [hreq] at hi
  cases hi

/-- C7: witness at the whitespace-only id. -/
theorem C7_request_validation_amended_witness :
    (rustTrim "   " = "" ∨ 20 < (rustTrim "   ").utf8ByteSize) ∧
    handle_video_request [] "   " =
      .badRequest ⟨false, rustTrim "   ", none, some "Invalid video ID"⟩ ∧
    (handle_video_status [] "   ").1 = 200 := by
  have h : rustTrim "   " = "" ∨ 20 < (rustTrim "   ").utf8ByteSize :=
    Or.inl (by decide)
  have hc := C7_request_validation_amended [] "   " h
  exact ⟨h, hc.1, hc.2.2⟩

/-- C10 (amended): both video handlers depend on the raw id only through
rustTrim — the Unicode-whitespace trim of Rust str::trim, a superset of
the ASCII trim the claim words state (see the counterexample) — so an id
and its trimmed form give identical responses (trim is idempotent), and
a whitespace-only id is treated as empty and rejected with 400 on
/video/request. -/
theorem C10_unicode_trim_amended :
    (∀ files r1 r2, rustTrim r1 = rustTrim r2 →
      handle_video_request files r1 = handle_video_request files r2 ∧
      handle_video_status files r1 = handle_video_status files r2) ∧
    (∀ raw, rustTrim (rustTrim raw) = rustTrim raw) ∧
    (∀ files raw, (∀ c ∈ raw.data, rustIsWhitespace c = true) →
      handle_video_request files raw =
        .badRequest ⟨false, "", none, some "Invalid video ID"⟩) := by
  refine ⟨?_, rustTrim_idem, ?_⟩
  · intro files r1 r2 h
    constructor
    · unfold handle_video_request
      rw [h]
    · unfold handle_video_status
      rw [h]
  · intro files raw h
    have ht : rustTrim raw = "" := by
      unfold rustTrim
      rw [trimCharList_all_ws rustIsWhitespace raw.data h]
    unfold handle_video_request
    rw [ht]
    simp

/-- C10: witness. A surrounded id answers like its trimmed form, and a
whitespace-only id is rejected. -/
theorem C10_unicode_trim_amended_witness :
    handle_video_request ["abc.webm"] " abc " = handle_video_request ["abc.webm"] "abc" ∧
    handle_video_request [] " " = .badRequest ⟨false, "", none, some "Invalid video ID"⟩ :=
  ⟨(C10_unicode_trim_amended.1 ["abc.webm"] " abc " "abc" (by decide)).1,
   C10_unicode_trim_amended.2.2 [] " " (by decide)⟩

/-- The loop of handle_get_now computes the claim C8 recursion whenever
the accumulator holds the most recent line strictly before the position
among the scanned prefix. -/
theorem getNowLoop_eq_spec (pos : Int) :
    ∀ ls scanned cur, cur = mostRecentBefore pos scanned →
      getNowLoop pos ls cur = getNowSpecAux pos scanned ls := by
  intro ls
  induction ls with
  | nil => intro scanned cur h; simpa [getNowLoop, getNowSpecAux] using h
  | cons l rest ih =>
    intro scanned cur h
    unfold getNowLoop getNowSpecAux
    by_cases h1 : l.start_time ≤ pos ∧ pos ≤ lineEnd l
    · rw [if_pos h1, if_pos h1]
    · rw [if_neg h1, if_neg h1]
      by_cases h2 : pos < l.start_time
      · rw [if_pos h2, if_pos h2]
        exact h
      · rw [if_neg h2, if_neg h2]
        apply ih
        have hs : l.start_time ≤ pos := by omega
        have he : lineEnd l < pos := by omega
        have hsb : strictlyBefore pos l = true := by
          unfold strictlyBefore
          simp [hs, he]
        unfold mostRecentBefore
        have hf : (scanned ++ [l]).filter (strictlyBefore pos) =
            scanned.filter (strictlyBefore pos) ++ [l] := by
          rw [List.filter_append]
          simp [hsb]
        rw [hf, List.getLast?_concat]

/-- C8: the /lyrics/getnow computation equals, on every pair of cell
contents, the claim recursion: lines are scanned in given order with an
absent end time read as the start time; the first containing line is
returned; a line starting past the position stops the scan and the most
recent line lying strictly before the position is returned, likewise at
the end of the list; an empty cell gives null. -/
theorem C8_getnow_matches_spec (lyrics : Option LyricsData)
    (progress : Option ProgressData) :
    handle_get_now lyrics progress = getNowSpec lyrics progress := by
  unfold handle_get_now getNowSpec
  cases lyrics with
  | none => rfl
  | some ld =>
    cases progress with
    | none => rfl
    | some pd => exact getNowLoop_eq_spec _ ld.lyrics [] none rfl

/-- A successful try_download_video publishes the completed event with
the public URL as its last event. -/
theorem try_ok_last (env : DlEnv) (vid : String) (cred : Credential) (name : String)
    (h : (try_download_video env vid cred).2 = .ok name) :
    ∃ es, (try_download_video env vid cred).1 = es ++ [completedEvent vid name] := by
  simp only [try_download_video] at h ⊢
  rcases hsp : (env.attempt cred).spawnErr with _ | m
  · rw [hsp] at h
    dsimp only at h ⊢
    by_cases hex : (env.attempt cred).exitSuccess = true
    · rw [if_pos hex] at h ⊢
      rcases hff : (env.attempt cred).foundFile with _ | n
      · rw [hff] at h
        simp at h
      · rw [hff] at h
        dsimp only at h ⊢
        obtain rfl : n = name := by simpa using h
        exact ⟨⟨vid, .checking, some 0, none, none, some (checkingMessage cred)⟩ ::
          (List.map (lineEvents env vid) (env.attempt cred).stdoutLines).flatten, by simp⟩
    · rw [if_neg hex] at h
      simp at h
  · rw [hsp] at h
    simp at h

/-- A successful browser loop ends its events with the completed
event of the found file. -/
theorem browserLoop_some_last (env : DlEnv) (vid : String) :
    ∀ bs name, (browserLoop env vid bs).2.2 = some name →
      ∃ es, (browserLoop env vid bs).1 = es ++ [completedEvent vid name] := by
  intro bs
  induction bs with
  | nil => intro name h; simp [browserLoop] at h
  | cons b rest ih =>
    intro name h
    rcases ht : try_download_video env vid (.browser b) with ⟨ev, r⟩
    have ht2 : (try_download_video env vid (.browser b)).2 = r := by rw [ht]
    have ht1 : (try_download_video env vid (.browser b)).1 = ev := by rw [ht]
    simp only [browserLoop, ht] at h ⊢
    cases r with
    | ok n =>
      have hn : n = name := by simpa using h
      subst hn
      obtain ⟨es, hes⟩ := try_ok_last env vid (.browser b) n ht2
      rw [ht1] at hes
      subst hes
      exact ⟨⟨vid, .checking, some 0, none, none,
        some ("Trying with " ++ b ++ " cookies...")⟩ :: es, rfl⟩
    | error e =>
      rcases hb : browserLoop env vid rest with ⟨evs, creds, res⟩
      simp only [hb] at h ⊢
      obtain ⟨es, hes⟩ := ih name (by rw [hb]; exact h)
      rw [hb] at hes
      dsimp only at hes
      subst hes
      refine ⟨⟨vid, .checking, some 0, none, none,
        some ("Trying with " ++ b ++ " cookies...")⟩ :: (ev ++ es), ?_⟩
      simp

/-- A successful cookie-phase tail ends its events with the completed
event of the found file. -/
theorem afterCookie_ok_last (env : DlEnv) (vid : String) (accEv : List DownloadProgress)
    (accCred : List Credential) (cf : Option String) (origErr : String) (name : String)
    (h : (afterCookiePhase env vid accEv accCred cf origErr).2.2 = .ok name) :
    ∃ es, (afterCookiePhase env vid accEv accCred cf origErr).1 =
      es ++ [completedEvent vid name] := by
  unfold afterCookiePhase at h ⊢
  by_cases hcond : env.installedBrowsers = [] ∧ cf = none
  · rw [if_pos hcond] at h
    simp at h
  · rw [if_neg hcond] at h ⊢
    rcases hb : browserLoop env vid env.installedBrowsers with ⟨evs, creds, res⟩
    rw [hb] at h
    cases res with
    | none => simp at h
    | some n =>
      dsimp only at h ⊢
      have hn : n = name := by simpa using h
      subst hn
      obtain ⟨es, hes⟩ := browserLoop_some_last env vid env.installedBrowsers n
        (by rw [hb])
      rw [hb] at hes
      dsimp only at hes
      subst hes
      exact ⟨accEv ++ es, by simp⟩

/-- A successful download_video ends its events with a terminal
event. -/
theorem download_ok_last (env : DlEnv) (vid name : String)
    (h : (download_video env vid).2.2 = .ok name) :
    ∃ es e, (download_video env vid).1 = es ++ [e] ∧ e.status.isTerminal = true := by
  unfold download_video at h ⊢
  by_cases hve : env.videoExistsAtStart = true
  · rw [if_pos hve]
    exact ⟨[], ⟨vid, .alreadyExists, some 100, none, none,
      some "Video already downloaded"⟩, rfl, rfl⟩
  · rw [if_neg hve] at h ⊢
    rcases h0 : try_download_video env vid .noCred with ⟨ev0, r0⟩
    have h01 : (try_download_video env vid .noCred).1 = ev0 := by rw [h0]
    have h02 : (try_download_video env vid .noCred).2 = r0 := by rw [h0]
    rw [h0] at h
    cases r0 with
    | ok n =>
      dsimp only at h ⊢
      obtain ⟨es, hes⟩ := try_ok_last env vid .noCred n h02
      rw [h01] at hes
      subst hes
      exact ⟨es, completedEvent vid n, rfl, rfl⟩
    | error e0 =>
      dsimp only at h ⊢
      by_cases hage : is_age_restriction_error e0 = true
      · rw [if_pos hage] at h ⊢
        rcases hc : get_cookies_file_path env with _ | p
        · rw [hc] at h
          dsimp only at h ⊢
          obtain ⟨es, hes⟩ := afterCookie_ok_last env vid ev0 [.noCred] none e0 name h
          rw [hes]
          exact ⟨es, completedEvent vid name, rfl, rfl⟩
        · rw [hc] at h
          dsimp only at h ⊢
          by_cases hp : env.credPathExists p = true
          · rw [if_pos hp] at h ⊢
            rcases h1 : try_download_video env vid (.cookieFile p) with ⟨ev1, r1⟩
            have h11 : (try_download_video env vid (.cookieFile p)).1 = ev1 := by rw [h1]
            have h12 : (try_download_video env vid (.cookieFile p)).2 = r1 := by rw [h1]
            rw [h1] at h
            cases r1 with
            | ok n =>
              dsimp only at h ⊢
              obtain ⟨es, hes⟩ := try_ok_last env vid (.cookieFile p) n h12
              rw [h11] at hes
              subst hes
              refine ⟨ev0 ++ ⟨vid, .checking, some 0, none, none,
                some "Trying with cookies.txt file..."⟩ :: es, completedEvent vid n, ?_, rfl⟩
              simp
            | error e1 =>
              dsimp only at h ⊢
              obtain ⟨es, hes⟩ := afterCookie_ok_last env vid _ _ (some p) e0 name h
              rw [hes]
              exact ⟨es, completedEvent vid name, rfl, rfl⟩
          · rw [if_neg hp] at h ⊢
            obtain ⟨es, hes⟩ := afterCookie_ok_last env vid ev0 [.noCred] (some p) e0 name h
            rw [hes]
            exact ⟨es, completedEvent vid name, rfl, rfl⟩
      · rw [if_neg hage] at h
        simp at h

/-- C2 (amended): every acquisition publishes at least one terminal
event and the last event published on the id broadcast is terminal;
however a terminal Error event is not always unique or last — a failed
attempt publishes an Error event that retries then follow, and a failed
acquisition publishes a duplicate final Error event (see the
counterexample). -/
theorem C2_last_event_terminal_amended (env : DlEnv) (vid : String) :
    ∃ es e, acquisition_events env vid = es ++ [e] ∧ e.status.isTerminal = true := by
  unfold acquisition_events
  rcases hd : download_video env vid with ⟨evs, creds, r⟩
  have hd1 : (download_video env vid).1 = evs := by rw [hd]
  have hd2 : (download_video env vid).2.2 = r := by rw [hd]
  simp only [hd]
  cases r with
  | error e => exact ⟨evs, errEvent vid e, rfl, rfl⟩
  | ok name =>
    obtain ⟨es, e, hes, hterm⟩ := download_ok_last env vid name hd2
    rw [hd1] at hes
    exact ⟨es, e, by simpa using hes, hterm⟩

/-- Events of any other status satisfy the message discipline
vacuously. -/
theorem eventMessageOk_of_status (e : DownloadProgress)
    (h1 : e.status ≠ .completed) (h2 : e.status ≠ .alreadyExists) : eventMessageOk e :=
  ⟨fun h => absurd h h1, fun h => absurd h h2⟩

/-- Stdout-derived events are downloading or processing events and so
satisfy the message discipline. -/
theorem lineEvents_ok (env : DlEnv) (vid line : String) :
    ∀ e ∈ lineEvents env vid line, eventMessageOk e := by
  intro e he
  unfold lineEvents at he
  rcases List.mem_append.mp he with h | h
  · rcases hp : env.parseLine line with _ | c
    · rw [hp] at h
      cases h
    · rw [hp] at h
      simp only [List.mem_singleton] at h
      subst h
      exact eventMessageOk_of_status _ (by simp) (by simp)
  · by_cases hcond : (strContainsSub line "[Merger]" || strContainsSub line "[ExtractAudio]" ||
        strContainsSub line "Deleting") = true
    · rw [if_pos hcond] at h
      simp only [List.mem_singleton] at h
      subst h
      exact eventMessageOk_of_status _ (by simp) (by simp)
    · rw [if_neg hcond] at h
      cases h

/-- All events of the stdout reader satisfy the message discipline. -/
theorem flatten_lineEvents_ok (env : DlEnv) (vid : String) (lines : List String) :
    ∀ e ∈ (List.map (lineEvents env vid) lines).flatten, eventMessageOk e := by
  intro e he
  rw [List.mem_flatten] at he
  obtain ⟨l, hl, hel⟩ := he
  rw [List.mem_map] at hl
  obtain ⟨line, hline, rfl⟩ := hl
  exact lineEvents_ok env vid line e hel

/-- Every event published by try_download_video satisfies the message
discipline. -/
theorem try_events_ok (env : DlEnv) (vid : String) (cred : Credential) :
    ∀ e ∈ (try_download_video env vid cred).1, eventMessageOk e := by
  intro e he
  simp only [try_download_video] at he
  rcases hsp : (env.attempt cred).spawnErr with _ | m
  · rw [hsp] at he
    dsimp only at he
    by_cases hex : (env.attempt cred).exitSuccess = true
    · rw [if_pos hex] at he
      rcases hff : (env.attempt cred).foundFile with _ | n
      · rw [hff] at he
        dsimp only at he
        rcases List.mem_append.mp he with h | h
        · rw [List.mem_singleton] at h
          subst h
          exact eventMessageOk_of_status _ (by simp) (by simp)
        · exact flatten_lineEvents_ok env vid _ e h
      · rw [hff] at he
        dsimp only at he
        rcases List.mem_append.mp he with h | h
        · rcases List.mem_append.mp h with ha | hb
          · rw [List.mem_singleton] at ha
            subst ha
            exact eventMessageOk_of_status _ (by simp) (by simp)
          · exact flatten_lineEvents_ok env vid _ e hb
        · rw [List.mem_singleton] at h
          subst h
          exact ⟨fun _ => ⟨n, rfl⟩, fun hx => absurd hx (by simp [completedEvent])⟩
    · rw [if_neg hex] at he
      dsimp only at he
      rcases List.mem_append.mp he with h | h
      · rcases List.mem_append.mp h with ha | hb
        · rw [List.mem_singleton] at ha
          subst ha
          exact eventMessageOk_of_status _ (by simp) (by simp)
        · exact flatten_lineEvents_ok env vid _ e hb
      · rw [List.mem_singleton] at h
        subst h
        exact eventMessageOk_of_status _ (by simp [errEvent]) (by simp [errEvent])
  · rw [hsp] at he
    dsimp only at he
    rw [List.mem_singleton] at he
    subst he
    exact eventMessageOk_of_status _ (by simp) (by simp)

/-- Every event published by the browser loop satisfies the message
discipline. -/
theorem browserLoop_events_ok (env : DlEnv) (vid : String) :
    ∀ bs, ∀ e ∈ (browserLoop env vid bs).1, eventMessageOk e := by
  intro bs
  induction bs with
  | nil => intro e he; cases he
  | cons b rest ih =>
    intro e he
    rcases ht : try_download_video env vid (.browser b) with ⟨ev, r⟩
    have ht1 : (try_download_video env vid (.browser b)).1 = ev := by rw [ht]
    simp only [browserLoop, ht] at he
    cases r with
    | ok n =>
      dsimp only at he
      rcases List.mem_cons.mp he with h | h
      · subst h
        exact eventMessageOk_of_status _ (by simp) (by simp)
      · exact try_events_ok env vid (.browser b) e (ht1 ▸ h)
    | error e1 =>
      rcases hb : browserLoop env vid rest with ⟨evs, creds, res⟩
      simp only [hb] at he
      rcases List.mem_cons.mp he with h | h
      · subst h
        exact eventMessageOk_of_status _ (by simp) (by simp)
      · rcases List.mem_append.mp h with ha | hb2
        · exact try_events_ok env vid (.browser b) e (ht1 ▸ ha)
        · have := ih e
          rw [hb] at this
          exact this hb2

/-- Every event published after the cookie phase satisfies the message
discipline, given the discipline on the accumulator. -/
theorem afterCookie_events_ok (env : DlEnv) (vid : String) (accEv : List DownloadProgress)
    (accCred : List Credential) (cf : Option String) (origErr : String)
    (hacc : ∀ x ∈ accEv, eventMessageOk x) :
    ∀ e ∈ (afterCookiePhase env vid accEv accCred cf origErr).1, eventMessageOk e := by
  intro e he
  unfold afterCookiePhase at he
  by_cases hcond : env.installedBrowsers = [] ∧ cf = none
  · rw [if_pos hcond] at he
    rcases List.mem_append.mp he with h | h
    · exact hacc e h
    · rw [List.mem_singleton] at h
      subst h
      exact eventMessageOk_of_status _ (by simp [errEvent]) (by simp [errEvent])
  · rw [if_neg hcond] at he
    rcases hb : browserLoop env vid env.installedBrowsers with ⟨evs, creds, res⟩
    rw [hb] at he
    have hbe : ∀ x ∈ evs, eventMessageOk x := by
      intro x hx
      have := browserLoop_events_ok env vid env.installedBrowsers x
      rw [hb] at this
      exact this hx
    cases res with
    | some n =>
      dsimp only at he
      rcases List.mem_append.mp he with h | h
      · exact hacc e h
      · exact hbe e h
    | none =>
      dsimp only at he
      rcases List.mem_append.mp he with h | h
      · rcases List.mem_append.mp h with ha | hb2
        · exact hacc e ha
        · exact hbe e hb2
      · rw [List.mem_singleton] at h
        subst h
        exact eventMessageOk_of_status _ (by simp [errEvent]) (by simp [errEvent])

/-- Every event published by download_video satisfies the message
discipline. -/
theorem download_events_ok (env : DlEnv) (vid : String) :
    ∀ e ∈ (download_video env vid).1, eventMessageOk e := by
  intro e he
  unfold download_video at he
  by_cases hve : env.videoExistsAtStart = true
  · rw [if_pos hve] at he
    rw [List.mem_singleton] at he
    subst he
    exact ⟨fun hx => absurd hx (by simp), fun _ => rfl⟩
  · rw [if_neg hve] at he
    rcases h0 : try_download_video env vid .noCred with ⟨ev0, r0⟩
    have h01 : (try_download_video env vid .noCred).1 = ev0 := by rw [h0]
    have hev0 : ∀ x ∈ ev0, eventMessageOk x := by
      intro x hx
      exact try_events_ok env vid .noCred x (h01 ▸ hx)
    rw [h0] at he
    cases r0 with
    | ok n =>
      dsimp only at he
      exact hev0 e he
    | error e0 =>
      dsimp only at he
      by_cases hage : is_age_restriction_error e0 = true
      · rw [if_pos hage] at he
        rcases hc : get_cookies_file_path env with _ | p
        · rw [hc] at he
          dsimp only at he
          exact afterCookie_events_ok env vid ev0 [.noCred] none e0 hev0 e he
        · rw [hc] at he
          dsimp only at he
          by_cases hp : env.credPathExists p = true
          · rw [if_pos hp] at he
            rcases h1 : try_download_video env vid (.cookieFile p) with ⟨ev1, r1⟩
            have h11 : (try_download_video env vid (.cookieFile p)).1 = ev1 := by rw [h1]
            have hacc1 : ∀ x ∈ ev0 ++ [(⟨vid, .checking, some 0, none, none,
                some "Trying with cookies.txt file..."⟩ : DownloadProgress)] ++ ev1,
                eventMessageOk x := by
              intro x hx
              rcases List.mem_append.mp hx with h | h
              · rcases List.mem_append.mp h with ha | hb
                · exact hev0 x ha
                · rw [List.mem_singleton] at hb
                  subst hb
                  exact eventMessageOk_of_status _ (by simp) (by simp)
              · exact try_events_ok env vid (.cookieFile p) x (h11 ▸ h)
            rw [h1] at he
            cases r1 with
            | ok n =>
              dsimp only at he
              exact hacc1 e he
            | error e1 =>
              dsimp only at he
              exact afterCookie_events_ok env vid _ _ (some p) e0 hacc1 e he
          · rw [if_neg hp] at he
            exact afterCookie_events_ok env vid ev0 [.noCred] (some p) e0 hev0 e he
      · rw [if_neg hage] at he
        exact hev0 e he

/-- C9 (amended): every completed event published during an acquisition
carries as its message the public URL of the discovered file under the
static route; an already-exists event instead carries the fixed string
Video already downloaded (see the counterexample). -/
theorem C9_completed_url_amended (env : DlEnv) (vid : String) (e : DownloadProgress)
    (he : e ∈ acquisition_events env vid) :
    (e.status = .completed → ∃ name, e.message = some (fileUrl name)) ∧
    (e.status = .alreadyExists → e.message = some "Video already downloaded") := by
  unfold acquisition_events at he
  rcases hd : download_video env vid with ⟨evs, creds, r⟩
  have hd1 : (download_video env vid).1 = evs := by rw [hd]
  rw [hd] at he
  have hevs : ∀ x ∈ evs, eventMessageOk x := by
    intro x hx
    exact download_events_ok env vid x (hd1 ▸ hx)
  cases r with
  | ok n =>
    dsimp only at he
    exact hevs e he
  | error e0 =>
    dsimp only at he
    rcases List.mem_append.mp he with h | h
    · exact hevs e h
    · rw [List.mem_singleton] at h
      subst h
      exact eventMessageOk_of_status _ (by simp [errEvent]) (by simp [errEvent])

/-- C9: witness. In the immediately successful environment the
completed event is published and its message is the URL of abc.webm. -/
theorem C9_completed_url_amended_witness :
    completedEvent "abc" "abc.webm" ∈ acquisition_events envSuccess "abc" ∧
    (∃ name, (completedEvent "abc" "abc.webm").message = some (fileUrl name)) :=
  ⟨by decide, (C9_completed_url_amended envSuccess "abc"
    (completedEvent "abc" "abc.webm") (by decide)).1 (by decide)⟩
